import Mathlib

/-!
Shallow embedding of the ISR cache subsystem of the astro-bun adapter:
the cache-entry data model and cacheability check (`buildCacheEntry`),
the two-tier byte-budgeted LRU store (`PersistentLRUCache`), the
revalidation handler's freshness state machine and request coalescing
(`createISRHandler` / `renderToEntry`), the expiration API, and the
generation vacuum. Definitions mirror the TypeScript sources
(`src/isr/handler.ts`, `src/isr/cache.ts`, `src/cache.ts`); theorems
settle the specification's claims about them.
-/

namespace ISR

/-- A cached SSR response (`ISRCacheEntry` in `types.ts`): buffered body,
serialized headers, status code and timing metadata. `body` is the byte
sequence (only its length matters for byte accounting), `cachedAt` a
millisecond timestamp, `sMaxAge`/`swr` the freshness directives in seconds. -/
structure ISRCacheEntry where
  body : List Nat
  headers : List (String × String)
  status : Nat
  cachedAt : Nat
  sMaxAge : Int
  swr : Int
deriving DecidableEq, Repr

/-- Parsed `Cache-Control` directives. This models the output of the external
`cache-control-parser` npm package for the three directives the adapter reads;
`none` means the directive is absent from the header value. -/
structure CacheControl where
  sMaxAge : Option Int
  swr : Option Int
  maxAge : Option Int
deriving DecidableEq, Repr

/-- Split a character list at every occurrence of the separator. -/
def splitOnChar (c : Char) : List Char → List (List Char)
  | [] => [[]]
  | x :: xs =>
    let r := splitOnChar c xs
    if x == c then [] :: r
    else
      match r with
      | h :: t => (x :: h) :: t
      | [] => [[x]]

/-- Strip leading and trailing ASCII spaces. -/
def trimSpaces (l : List Char) : List Char :=
  ((l.dropWhile (fun c => c == ' ')).reverse.dropWhile
    (fun c => c == ' ')).reverse

/-- Lowercase every character. -/
def toLowerChars (l : List Char) : List Char :=
  l.map Char.toLower

/-- Accumulate a decimal digit string into a number; any non-digit fails. -/
def digitsToNat (acc : Nat) : List Char → Option Nat
  | [] => some acc
  | c :: cs =>
    if c.isDigit then digitsToNat (acc * 10 + (c.toNat - 48)) cs else none

/-- Parse an optionally-signed decimal integer. -/
def parseIntChars : List Char → Option Int
  | [] => none
  | '-' :: rest =>
    match rest with
    | [] => none
    | _ => (digitsToNat 0 rest).map (fun n => -(n : Int))
  | l => (digitsToNat 0 l).map (fun n => (n : Int))

/-- Parse one `name=value` (or bare `name`) cache-control directive token. -/
def parseDirective (tok : List Char) : List Char × Option Int :=
  match splitOnChar '=' tok with
  | [n, v] => (toLowerChars (trimSpaces n), parseIntChars (trimSpaces v))
  | _ => (toLowerChars (trimSpaces tok), none)

/-- Model of the external `cache-control-parser` library restricted to the
directives the adapter consumes: splits the header value on commas and
extracts `s-maxage`, `stale-while-revalidate` and `max-age`. -/
def parseCacheControl (s : String) : CacheControl :=
  let ds := (splitOnChar ',' s.data).map parseDirective
  { sMaxAge := (ds.find? (fun d => d.1 == "s-maxage".data)).bind (·.2)
    swr :=
      (ds.find? (fun d => d.1 == "stale-while-revalidate".data)).bind (·.2)
    maxAge := (ds.find? (fun d => d.1 == "max-age".data)).bind (·.2) }

/-- Look up the value of the first header with the given (lowercase) name,
mirroring `headers.find(([name]) => name === "cache-control")?.[1] ?? ""`. -/
def findHeader (headers : List (String × String)) (name : String) : String :=
  ((headers.find? (fun h => h.1 == name)).map (·.2)).getD ""

/-- Core of `buildCacheEntry` (handler.ts) after the `Cache-Control` header has
been parsed: if `s-maxage` is absent or non-positive (`!sMaxAge || sMaxAge <= 0`)
no entry is built; otherwise an entry with `swr` defaulting to 0 is produced. -/
def buildCacheEntryCC (cc : CacheControl) (headers : List (String × String))
    (status : Nat) (body : List Nat) (now : Nat) : Option ISRCacheEntry :=
  match cc.sMaxAge with
  | none => none
  | some v =>
    if v ≤ 0 then none
    else some
      { body := body
        headers := headers
        status := status
        cachedAt := now
        sMaxAge := v
        swr := cc.swr.getD 0 }

/-- `buildCacheEntry` (handler.ts, lines 17-38): read the `cache-control`
header from the captured header list, parse it, and build an ISR cache entry
when a positive `s-maxage` is present. -/
def buildCacheEntry (headers : List (String × String)) (status : Nat)
    (body : List Nat) (now : Nat) : Option ISRCacheEntry :=
  buildCacheEntryCC (parseCacheControl (findHeader headers "cache-control"))
    headers status body now

/-- Byte cost of an entry as computed by `cache.ts`: `value.body.byteLength`. -/
def entrySize (e : ISRCacheEntry) : Nat := e.body.length

/-- Total byte size of the nodes linked in the memory tier. -/
def memBytes (mem : List (String × ISRCacheEntry)) : Nat :=
  (mem.map (fun p => entrySize p.2)).sum

/-- State of a `PersistentLRUCache` (cache.ts). `mem` is the doubly linked
LRU list together with the `entries` map, represented as an association list
in recency order (head = newest, i.e. just after the FRONT boundary node);
`currentBytes` is the tracked running byte total; `diskKeys` the set of keys
known to exist on disk; `disk` the on-disk entry files (a completed write
places the entry here); `maxByteSize` the configured byte budget. -/
structure LRUState where
  mem : List (String × ISRCacheEntry)
  currentBytes : Int
  diskKeys : List String
  disk : List (String × ISRCacheEntry)
  maxByteSize : Nat
deriving DecidableEq, Repr

/-- Lookup in the memory tier (`this.entries.get(key)`), first match wins. -/
def memFind (mem : List (String × ISRCacheEntry)) (key : String) :
    Option ISRCacheEntry :=
  (mem.find? (fun p => p.1 == key)).map (·.2)

/-- Detach the node for `key` from the recency list (`detach` + map removal). -/
def eraseKey (mem : List (String × ISRCacheEntry)) (key : String) :
    List (String × ISRCacheEntry) :=
  mem.eraseP (fun p => p.1 == key)

/-- One-element-per-iteration unrolling of the `evictOverBudget` while loop:
drop the oldest node (back of the list) while the running total exceeds the
budget and the list is nonempty. The fuel argument bounds the iterations;
each iteration shortens the list by one, so `mem.length` fuel is exact. -/
def evictLoop (maxB : Nat) :
    Nat → List (String × ISRCacheEntry) → Int →
      List (String × ISRCacheEntry) × Int
  | 0, mem, bytes => (mem, bytes)
  | fuel + 1, mem, bytes =>
    if (maxB : Int) < bytes then
      match mem.getLast? with
      | none => (mem, bytes)
      | some oldest =>
        evictLoop maxB fuel mem.dropLast (bytes - entrySize oldest.2)
    else (mem, bytes)

/-- `evictOverBudget` (cache.ts, lines 356-366): drop the oldest entries from
memory while the running total exceeds the byte budget and the map is
nonempty. Evicted entries stay on disk. -/
def evictOverBudget (maxB : Nat) (mem : List (String × ISRCacheEntry))
    (bytes : Int) : List (String × ISRCacheEntry) × Int :=
  evictLoop maxB mem.length mem bytes

/-- `loadFromDisk` (cache.ts, lines 227-260): read the entry file. On success,
if a concurrent `set` inserted the key meanwhile, promote that node and return
its value; otherwise insert the loaded entry at the newest position, add its
size to the running total and evict over budget. On failure (file missing or
corrupt) remove the dead reference from the disk index and report a miss. -/
def loadOp (s : LRUState) (key : String) : Option ISRCacheEntry × LRUState :=
  match (s.disk.find? (fun p => p.1 == key)).map (·.2) with
  | some e =>
    match memFind s.mem key with
    | some existing =>
      (some existing, { s with mem := (key, existing) :: eraseKey s.mem key })
    | none =>
      let r := evictOverBudget s.maxByteSize ((key, e) :: s.mem)
        (s.currentBytes + entrySize e)
      (some e, { s with mem := r.1, currentBytes := r.2 })
  | none =>
    (none, { s with diskKeys := s.diskKeys.erase key })

/-- `get` (cache.ts, lines 118-140): an in-memory hit promotes the node and
returns its value; a memory miss with a known disk key loads from disk; a
memory miss with no known disk key is an immediate absence. -/
def getOp (s : LRUState) (key : String) : Option ISRCacheEntry × LRUState :=
  match memFind s.mem key with
  | some e => (some e, { s with mem := (key, e) :: eraseKey s.mem key })
  | none =>
    if s.diskKeys.contains key then loadOp s key
    else (none, s)

/-- `set` (cache.ts, lines 148-179): entries whose body exceeds the whole
budget are skipped. Otherwise the memory tier is updated synchronously
(replace-and-promote or insert-at-front plus byte accounting), then evicted
down to budget; the key is recorded in the disk index and the entry file write
is issued (modelled as completed). -/
def setOp (s : LRUState) (key : String) (value : ISRCacheEntry) : LRUState :=
  if s.maxByteSize < entrySize value then s
  else
    let r :=
      match memFind s.mem key with
      | some old =>
        evictOverBudget s.maxByteSize ((key, value) :: eraseKey s.mem key)
          (s.currentBytes - entrySize old + entrySize value)
      | none =>
        evictOverBudget s.maxByteSize ((key, value) :: s.mem)
          (s.currentBytes + entrySize value)
    { s with
      mem := r.1
      currentBytes := r.2
      diskKeys :=
        if s.diskKeys.contains key then s.diskKeys else key :: s.diskKeys
      disk := (key, value) :: eraseKey s.disk key }

/-- `delete` (cache.ts, lines 185-207): detach the node from memory (if
present) and subtract its size; when the key is known on disk, drop it from
the disk index and remove the entry file. -/
def deleteOp (s : LRUState) (key : String) : LRUState :=
  let s1 :=
    match memFind s.mem key with
    | some old =>
      { s with
        mem := eraseKey s.mem key
        currentBytes := s.currentBytes - entrySize old }
    | none => s
  if s1.diskKeys.contains key then
    { s1 with diskKeys := s1.diskKeys.erase key, disk := eraseKey s1.disk key }
  else s1

/-- A store operation: `set`, `get`, `delete`, or a direct disk load (the
pre-fill pass calls `loadFromDisk` without going through `get`). -/
inductive StoreOp where
  | set (key : String) (value : ISRCacheEntry)
  | get (key : String)
  | del (key : String)
  | load (key : String)
deriving Repr

/-- Apply one store operation to the state. -/
def applyOp (s : LRUState) : StoreOp → LRUState
  | .set k v => setOp s k v
  | .get k => (getOp s k).2
  | .del k => deleteOp s k
  | .load k => (loadOp s k).2

/-- Apply a sequence of store operations in order. -/
def applyOps (s : LRUState) (ops : List StoreOp) : LRUState :=
  ops.foldl applyOp s

/-- A freshly constructed store after `load()` restored the disk index:
empty memory tier, zero running total, disk keys taken from the index. -/
def initState (maxByteSize : Nat) (disk : List (String × ISRCacheEntry)) :
    LRUState :=
  { mem := []
    currentBytes := 0
    diskKeys := disk.map (·.1)
    disk := disk
    maxByteSize := maxByteSize }

/-- The tracked running byte total agrees with the sum of the sizes of the
nodes currently linked in the memory tier. -/
def memInv (s : LRUState) : Prop :=
  s.currentBytes = (memBytes s.mem : Int)

/-- Byte-budget invariant of the memory tier: accounting is exact and the
total is within the configured budget. -/
def byteBudgetInv (s : LRUState) : Prop :=
  memInv s ∧ s.currentBytes ≤ (s.maxByteSize : Int)

/-- Possible ISR cache states attached to responses (`x-astro-cache`). -/
inductive CacheStatus where
  | HIT
  | STALE
  | MISS
  | BYPASS
deriving DecidableEq, Repr

/-- The exact header value attached for each cache status. -/
def CacheStatus.label : CacheStatus → String
  | .HIT => "HIT"
  | .STALE => "STALE"
  | .MISS => "MISS"
  | .BYPASS => "BYPASS"

/-- A `Response` as far as the handler observes it: buffered body bytes,
header list and status code. -/
structure ModelResponse where
  body : List Nat
  headers : List (String × String)
  status : Nat
deriving DecidableEq, Repr

/-- `Headers.set`: replace any existing header of that name with the single
new value. -/
def setHeader (headers : List (String × String)) (name value : String) :
    List (String × String) :=
  (headers.filter (fun h => h.1 != name)) ++ [(name, value)]

/-- `responseFromEntry` (handler.ts, lines 44-54): reconstruct a response from
a cached entry and attach the `x-astro-cache` status header. -/
def responseFromEntry (e : ISRCacheEntry) (st : CacheStatus) : ModelResponse :=
  { body := e.body
    headers := setHeader e.headers "x-astro-cache" st.label
    status := e.status }

/-- `IMAGE_CACHE_CONTROL` (handler.ts, lines 13-14): the Cache-Control value
substituted for image endpoint responses. -/
def IMAGE_CACHE_CONTROL : String :=
  "public, max-age=31536000, s-maxage=31536000, stale-while-revalidate=86400"

/-- The image-endpoint test in `renderToEntry` (handler.ts, lines 78-81):
`cacheKey === imageEndpointRoute || cacheKey.startsWith(imageEndpointRoute + "?")`. -/
def isImageKey (imageEndpointRoute cacheKey : String) : Bool :=
  cacheKey == imageEndpointRoute ||
    (imageEndpointRoute ++ "?").data.isPrefixOf cacheKey.data

/-- The header-rewrite loop of `renderToEntry` (handler.ts, lines 82-88):
replace the value of the first `cache-control` header with
`IMAGE_CACHE_CONTROL` and stop; a list without that header is unchanged. -/
def overrideFirstCacheControl :
    List (String × String) → List (String × String)
  | [] => []
  | h :: t =>
    if h.1 == "cache-control" then (h.1, IMAGE_CACHE_CONTROL) :: t
    else h :: overrideFirstCacheControl t

/-- The effective header list `renderToEntry` feeds to the cacheability check:
rewritten for image-endpoint cache keys, untouched otherwise. -/
def renderHeaders (imageEndpointRoute cacheKey : String)
    (headers : List (String × String)) : List (String × String) :=
  if isImageKey imageEndpointRoute cacheKey then
    overrideFirstCacheControl headers
  else headers

/-- The cache entry `renderToEntry` builds from a rendered response (handler.ts,
lines 71-101): capture the headers, apply the image-endpoint override, then run
the cacheability check. -/
def renderEntry (imageEndpointRoute cacheKey : String)
    (headers : List (String × String)) (status : Nat) (body : List Nat)
    (now : Nat) : Option ISRCacheEntry :=
  buildCacheEntry (renderHeaders imageEndpointRoute cacheKey headers)
    status body now

/-- Per-handler transient coordination state (`createISRHandler`): the store,
the set of keys with a background revalidation in flight, and the set of keys
with a pending MISS render. -/
structure HandlerState where
  cache : LRUState
  revalidating : List String
  inflight : List String
deriving DecidableEq, Repr

/-- What the synchronous part of a request evaluation produced: a response
served from cache (recording whether a background revalidation was started),
a MISS for which this caller starts the origin render, or a MISS that
coalesces onto an already-pending render. `deletedExpired` records whether an
expired entry was discarded on the way. -/
inductive RequestOutcome where
  | served (r : ModelResponse) (startedRevalidation : Bool)
  | missRender (deletedExpired : Bool)
  | missAwait (deletedExpired : Bool)
deriving DecidableEq, Repr

/-- The decision procedure of the ISR handler (handler.ts, lines 144-213) up
to the suspension on the origin render: look up the key (promoting it),
compute `elapsed = now - cachedAt`, serve HIT inside `s-maxage`, serve STALE
inside the stale-while-revalidate window (starting at most one background
revalidation per key), or delete an entry past both windows and fall through
to the MISS path, where concurrent callers coalesce on one pending render. -/
def handleRequest (s : HandlerState) (key : String) (now : Nat) :
    RequestOutcome × HandlerState :=
  let g := getOp s.cache key
  match g.1 with
  | some entry =>
    let elapsed : Int := (now : Int) - entry.cachedAt
    if elapsed < entry.sMaxAge * 1000 then
      (.served (responseFromEntry entry .HIT) false, { s with cache := g.2 })
    else if elapsed < (entry.sMaxAge + entry.swr) * 1000 then
      if s.revalidating.contains key then
        (.served (responseFromEntry entry .STALE) false, { s with cache := g.2 })
      else
        (.served (responseFromEntry entry .STALE) true,
          { s with cache := g.2, revalidating := key :: s.revalidating })
    else
      let c2 := deleteOp g.2 key
      if s.inflight.contains key then
        (.missAwait true, { s with cache := c2 })
      else
        (.missRender true,
          { s with cache := c2, inflight := key :: s.inflight })
  | none =>
    if s.inflight.contains key then
      (.missAwait false, { s with cache := g.2 })
    else
      (.missRender false,
        { s with cache := g.2, inflight := key :: s.inflight })

/-- How an origin render settles: the promise rejects, or it resolves with a
response (headers, status and fully-buffered body). -/
inductive RenderOutcome where
  | failed
  | ok (headers : List (String × String)) (status : Nat) (body : List Nat)
deriving DecidableEq, Repr

/-- Settlement of `renderToEntry`'s entry promise against the store: a failed
render stores nothing and yields a rejection (`none`); a resolved render
stores the built entry via `cache.set` exactly when it is cacheable, and
yields the resolved value (`some` of the optional entry). -/
def settleRender (cache : LRUState) (key imageEndpointRoute : String)
    (o : RenderOutcome) (now : Nat) :
    Option (Option ISRCacheEntry) × LRUState :=
  match o with
  | .failed => (none, cache)
  | .ok h st b =>
    match renderEntry imageEndpointRoute key h st b now with
    | none => (some none, cache)
    | some e => (some (some e), setOp cache key e)

/-- Settlement of a background revalidation (handler.ts, lines 163-173): the
render's entry promise settles against the store and, whatever happened, the
per-key revalidating marker is removed (`catch`/`finally`). -/
def settleRevalidation (s : HandlerState) (key imageEndpointRoute : String)
    (o : RenderOutcome) (now : Nat) : HandlerState :=
  let r := settleRender s.cache key imageEndpointRoute o now
  { s with cache := r.2, revalidating := s.revalidating.erase key }

/-- Settlement of a pending MISS render (handler.ts, lines 189-198): the
entry promise settles against the store and the inflight registration is
removed; waiting callers observe the returned value (`none` = the render
rejected, `some none` = resolved but not cacheable, `some (some e)` = the
stored entry). -/
def settleMiss (s : HandlerState) (key imageEndpointRoute : String)
    (o : RenderOutcome) (now : Nat) :
    Option (Option ISRCacheEntry) × HandlerState :=
  let r := settleRender s.cache key imageEndpointRoute o now
  (r.1, { s with cache := r.2, inflight := s.inflight.erase key })

/-- Origin renders performed by one waiting MISS caller after the pending
entry promise resolves (handler.ts, lines 204-212): a cacheable result is
served as a MISS copy with no further render; a non-cacheable result makes
the waiter fall through to a direct BYPASS render of its own. -/
def waiterOriginCalls (pending : Option ISRCacheEntry) : Nat :=
  match pending with
  | some _ => 0
  | none => 1

/-- The response a waiting MISS caller returns once the pending entry promise
resolves: the cached copy tagged MISS, or its own direct render tagged
BYPASS. -/
def waiterResponse (pending : Option ISRCacheEntry)
    (bypass : ModelResponse) : ModelResponse :=
  match pending with
  | some e => responseFromEntry e .MISS
  | none =>
    { bypass with
      headers := setHeader bypass.headers "x-astro-cache"
        CacheStatus.BYPASS.label }

/-- Run `n` request arrivals for the same key through the handler's
synchronous sections in order, counting how many of them start an origin
render (outcome `missRender`). -/
def missArrivals (s : HandlerState) (key : String) (now : Nat) :
    Nat → Nat × HandlerState
  | 0 => (0, s)
  | n + 1 =>
    let r := handleRequest s key now
    let rest := missArrivals r.2 key now n
    ((match r.1 with
      | .missRender _ => 1
      | _ => 0) + rest.1, rest.2)

/-- Total origin invocations in the N-concurrent-MISS scenario: the arrivals'
renders plus, after the pending render settles, each of the `n - 1` waiting
callers' own renders (zero when the result was cacheable). -/
def missScenarioCalls (s : HandlerState) (key imageEndpointRoute : String)
    (now : Nat) (n : Nat) (o : RenderOutcome) : Nat :=
  let a := missArrivals s key now n
  let st := settleMiss a.2 key imageEndpointRoute o now
  a.1 + (n - 1) *
    (match st.1 with
    | some pending => waiterOriginCalls pending
    | none => 0)

/-- Modelled from the spec: the implementation of the handler-attached
`cache.expireAll` member (the `ISRCache` instance the Expiration API's
`unstable_expireAll` delegates to) is not among the provided sources — only
its interface (`ISRCache` in types.ts), its caller (`unstable_expireAll` in
cache.ts) and its tests are. Per the Expiration API contract and the handler
test "expireAll removes page entries but preserves image cache", `expireAll`
deletes every cached entry from both tiers except the entries whose cache key
falls under the image endpoint route, which are preserved. -/
def expireAllOp (imageEndpointRoute : String) (s : LRUState) : LRUState :=
  { s with
    mem := s.mem.filter (fun p => isImageKey imageEndpointRoute p.1)
    currentBytes :=
      (memBytes (s.mem.filter (fun p => isImageKey imageEndpointRoute p.1)) :
        Int)
    diskKeys := s.diskKeys.filter (fun k => isImageKey imageEndpointRoute k)
    disk := s.disk.filter (fun p => isImageKey imageEndpointRoute p.1) }

/-- On-disk state the generation vacuum acts on: the generation directories
present under the cache dir, and the parsed `manifest.json` (`none` when the
file is missing or unreadable). -/
structure DiskFS where
  dirs : List String
  manifest : Option (List String)
deriving DecidableEq, Repr

/-- `vacuum` (cache.ts, lines 372-395): read the manifest (missing or corrupt
means no tracked generations), delete the directory of every tracked build id
other than the current one, then record only the current build id in the
manifest. Directories not tracked by the manifest are never touched. -/
def vacuum (buildId : String) (d : DiskFS) : DiskFS :=
  let tracked := d.manifest.getD []
  { dirs :=
      d.dirs.filter (fun dir => !(tracked.contains dir && dir != buildId))
    manifest := some [buildId] }

/-- Test fixture: an entry whose body is `n` zero bytes (fresh for 60 s). -/
def entryOfBytes (n : Nat) : ISRCacheEntry :=
  { body := List.replicate n 0
    headers := []
    status := 200
    cachedAt := 0
    sMaxAge := 60
    swr := 0 }

/-- Test fixture: a page entry as stored after a `s-maxage=60` render. -/
def pageEntry : ISRCacheEntry :=
  { body := [1, 2, 3]
    headers := [("cache-control", "s-maxage=60")]
    status := 200
    cachedAt := 0
    sMaxAge := 60
    swr := 0 }

/-- Test fixture: an image-endpoint entry as stored after the header override. -/
def imageEntry : ISRCacheEntry :=
  { body := [9, 9]
    headers := [("cache-control", IMAGE_CACHE_CONTROL)]
    status := 200
    cachedAt := 0
    sMaxAge := 31536000
    swr := 86400 }

/-- Test fixture: a store holding one page entry and one image-endpoint entry. -/
def expireAllState : LRUState :=
  applyOps (initState 1000 [])
    [.set "/page" pageEntry, .set "/_image?href=a" imageEntry]

/-- Test fixture: an entry with `sMaxAge = 1`, `swr = 10`, cached at t = 0. -/
def staleEntry : ISRCacheEntry :=
  { body := [1]
    headers := []
    status := 200
    cachedAt := 0
    sMaxAge := 1
    swr := 10 }

/-- Test fixture: a handler whose store holds `staleEntry` under `/page`. -/
def staleHandlerState : HandlerState :=
  { cache := setOp (initState 1000 []) "/page" staleEntry
    revalidating := []
    inflight := [] }

/-- Test fixture: a handler over an empty store. -/
def emptyHandlerState : HandlerState :=
  { cache := initState 1000 []
    revalidating := []
    inflight := [] }

/-- Test fixture: headers carrying only a bare `max-age` (Astro's image
endpoint default). -/
def bareMaxAgeHeaders : List (String × String) :=
  [("cache-control", "public, max-age=31536000")]

/-- Test fixture: a cache dir holding generations `A` and `B` plus an
untracked directory, with `A` and `B` recorded in the manifest. -/
def vacuumFixture : DiskFS :=
  { dirs := ["A", "B", "untracked"]
    manifest := some ["A", "B"] }

@[simp]
theorem memBytes_nil : memBytes [] = 0 := rfl

@[simp]
theorem memBytes_cons (p : String × ISRCacheEntry)
    (t : List (String × ISRCacheEntry)) :
    memBytes (p :: t) = entrySize p.2 + memBytes t := rfl

theorem memBytes_append (l₁ l₂ : List (String × ISRCacheEntry)) :
    memBytes (l₁ ++ l₂) = memBytes l₁ + memBytes l₂ := by
  simp [memBytes]

@[simp]
theorem memFind_cons (p : String × ISRCacheEntry)
    (t : List (String × ISRCacheEntry)) (key : String) :
    memFind (p :: t) key = if p.1 == key then some p.2 else memFind t key := by
  by_cases hp : p.1 == key
  · simp [memFind, List.find?_cons_of_pos _ hp, hp]
  · simp only [Bool.not_eq_true] at hp
    have hfind : List.find? (fun q => q.1 == key) (p :: t) =
        List.find? (fun q => q.1 == key) t :=
      List.find?_cons_of_neg _ (by simp [hp])
    simp [memFind, hfind, hp]

@[simp]
theorem eraseKey_cons (p : String × ISRCacheEntry)
    (t : List (String × ISRCacheEntry)) (key : String) :
    eraseKey (p :: t) key =
      if p.1 == key then t else p :: eraseKey t key := by
  by_cases hp : p.1 == key
  · simp [eraseKey, List.eraseP_cons, hp]
  · simp only [Bool.not_eq_true] at hp
    simp [eraseKey, List.eraseP_cons, hp]

/-- Detaching the first node found for `key` removes exactly its size. -/
theorem memBytes_eraseKey (mem : List (String × ISRCacheEntry)) (key : String)
    (v : ISRCacheEntry) (h : memFind mem key = some v) :
    memBytes mem = memBytes (eraseKey mem key) + entrySize v := by
  induction mem with
  | nil => simp [memFind] at h
  | cons p t ih =>
    by_cases hp : p.1 == key
    · rw [memFind_cons, if_pos hp] at h
      rw [eraseKey_cons, if_pos hp]
      have hv : p.2 = v := by simpa using h
      simp [hv]
      omega
    · rw [memFind_cons, if_neg hp] at h
      rw [eraseKey_cons, if_neg hp]
      have := ih h
      simp
      omega

/-- After the eviction loop, the byte accounting is still exact and the
total is within budget (when the list empties, the total is zero). -/
theorem evictLoop_spec (maxB : Nat) :
    ∀ (fuel : Nat) (mem : List (String × ISRCacheEntry)) (bytes : Int),
      mem.length ≤ fuel → bytes = (memBytes mem : Int) →
      (evictLoop maxB fuel mem bytes).2 =
          (memBytes (evictLoop maxB fuel mem bytes).1 : Int) ∧
        (evictLoop maxB fuel mem bytes).2 ≤ (maxB : Int) ∨
      (evictLoop maxB fuel mem bytes) = (mem, bytes) ∧
        ¬ (maxB : Int) < bytes := by
  intro fuel
  induction fuel with
  | zero =>
    intro mem bytes hlen hsum
    have hmem : mem = [] := List.length_eq_zero.mp (Nat.le_zero.mp hlen)
    subst hmem
    simp at hsum
    by_cases hlt : (maxB : Int) < bytes
    · exfalso
      omega
    · exact Or.inr ⟨rfl, hlt⟩
  | succ fuel ih =>
    intro mem bytes hlen hsum
    rw [evictLoop]
    split
    · rename_i hlt
      split
      · rename_i hlast
        have hmem : mem = [] := List.getLast?_eq_none_iff.mp hlast
        subst hmem
        simp at hsum
        exfalso
        omega
      · rename_i oldest hlast
        have hsplit : mem.dropLast ++ [oldest] = mem :=
          List.dropLast_append_getLast? _ hlast
        have hm := memBytes_append mem.dropLast [oldest]
        rw [hsplit] at hm
        simp only [memBytes_cons, memBytes_nil] at hm
        have hne : mem ≠ [] := by
          intro h0
          rw [h0] at hlast
          simp at hlast
        have hlen2 : mem.dropLast.length ≤ fuel := by
          have := List.length_pos.mpr hne
          simp only [List.length_dropLast]
          omega
        rcases ih mem.dropLast (bytes - (entrySize oldest.2 : Int)) hlen2
          (by omega) with h | h
        · exact Or.inl h
        · refine Or.inl ⟨?_, ?_⟩
          · rw [h.1]
            show bytes - (entrySize oldest.2 : Int) =
              (memBytes mem.dropLast : Int)
            omega
          · rw [h.1]
            show bytes - (entrySize oldest.2 : Int) ≤ (maxB : Int)
            have := h.2
            omega
    · rename_i hlt
      exact Or.inr ⟨rfl, hlt⟩

/-- After `evictOverBudget`, the byte accounting is still exact and the
total is within budget. -/
theorem evictOverBudget_spec (maxB : Nat)
    (mem : List (String × ISRCacheEntry)) (bytes : Int)
    (hsum : bytes = (memBytes mem : Int)) :
    (evictOverBudget maxB mem bytes).2 =
        (memBytes (evictOverBudget maxB mem bytes).1 : Int) ∧
      (evictOverBudget maxB mem bytes).2 ≤ (maxB : Int) := by
  rcases evictLoop_spec maxB mem.length mem bytes le_rfl hsum with h | h
  · exact h
  · rw [evictOverBudget, h.1]
    exact ⟨hsum, by omega⟩

/-- The eviction loop never evicts the front (most-recently-used) node when
that node alone fits in the budget. -/
theorem evictLoop_front (maxB : Nat) :
    ∀ (fuel : Nat) (x : String × ISRCacheEntry)
      (rest : List (String × ISRCacheEntry)) (bytes : Int),
      rest.length < fuel → bytes = (memBytes (x :: rest) : Int) →
      entrySize x.2 ≤ maxB →
      ∃ rest2, (evictLoop maxB fuel (x :: rest) bytes).1 = x :: rest2 := by
  intro fuel
  induction fuel with
  | zero =>
    intro x rest bytes hlen hsum hfit
    exact absurd hlen (by omega)
  | succ fuel ih =>
    intro x rest bytes hlen hsum hfit
    rw [evictLoop]
    split
    · rename_i hlt
      match rest, hlen with
      | [], _ =>
        simp at hsum
        omega
      | y :: ys, hlen =>
        split
        · rename_i hlast
          simp [List.getLast?_eq_none_iff] at hlast
        · rename_i oldest hlast
          have hlast2 : (y :: ys).getLast? = some oldest := by
            rw [← hlast]
            exact (List.getLast?_cons_cons ..).symm
          have hdl : (x :: y :: ys).dropLast = x :: (y :: ys).dropLast :=
            List.dropLast_cons₂ ..
          have hsplit : (y :: ys).dropLast ++ [oldest] = y :: ys :=
            List.dropLast_append_getLast? _ hlast2
          have hm := memBytes_append (y :: ys).dropLast [oldest]
          rw [hsplit] at hm
          simp only [memBytes_cons, memBytes_nil] at hm
          have hbytes : bytes - (entrySize oldest.2 : Int) =
              (memBytes (x :: (y :: ys).dropLast) : Int) := by
            simp only [memBytes_cons] at hsum ⊢
            omega
          have hlen2 : (y :: ys).dropLast.length < fuel := by
            simp only [List.length_dropLast, List.length_cons] at hlen ⊢
            omega
          have hres := ih x (y :: ys).dropLast _ hlen2 hbytes hfit
          rw [hdl]
          exact hres
    · exact ⟨rest, rfl⟩

/-- `evictOverBudget` never evicts the front (most-recently-used) node when
that node alone fits in the budget. -/
theorem evictOverBudget_front (maxB : Nat) (x : String × ISRCacheEntry)
    (rest : List (String × ISRCacheEntry)) (bytes : Int)
    (hsum : bytes = (memBytes (x :: rest) : Int))
    (hfit : entrySize x.2 ≤ maxB) :
    ∃ rest2, (evictOverBudget maxB (x :: rest) bytes).1 = x :: rest2 :=
  evictLoop_front maxB (x :: rest).length x rest bytes (by simp) hsum hfit

/-- An in-memory hit's replace-and-promote step preserves the byte total. -/
theorem memBytes_promote (mem : List (String × ISRCacheEntry)) (key : String)
    (e : ISRCacheEntry) (h : memFind mem key = some e) :
    memBytes ((key, e) :: eraseKey mem key) = memBytes mem := by
  have := memBytes_eraseKey mem key e h
  simp only [memBytes_cons]
  omega

/-- `set` preserves the byte-budget invariant. -/
theorem setOp_inv (s : LRUState) (key : String) (v : ISRCacheEntry)
    (h : byteBudgetInv s) : byteBudgetInv (setOp s key v) := by
  obtain ⟨h1, h2⟩ := h
  rw [memInv] at h1
  unfold setOp
  split
  · exact ⟨h1, h2⟩
  · cases hfind : memFind s.mem key with
    | none =>
      simp only [hfind]
      have hsum : s.currentBytes + (entrySize v : Int) =
          (memBytes ((key, v) :: s.mem) : Int) := by
        simp only [memBytes_cons]
        push_cast
        omega
      have hs := evictOverBudget_spec s.maxByteSize
        ((key, v) :: s.mem) _ hsum
      exact ⟨hs.1, hs.2⟩
    | some old =>
      simp only [hfind]
      have he := memBytes_eraseKey s.mem key old hfind
      have hsum : s.currentBytes - (entrySize old : Int) + (entrySize v : Int) =
          (memBytes ((key, v) :: eraseKey s.mem key) : Int) := by
        simp only [memBytes_cons]
        push_cast
        omega
      have hs := evictOverBudget_spec s.maxByteSize
        ((key, v) :: eraseKey s.mem key) _ hsum
      exact ⟨hs.1, hs.2⟩

/-- `loadFromDisk` preserves the byte-budget invariant. -/
theorem loadOp_inv (s : LRUState) (key : String)
    (h : byteBudgetInv s) : byteBudgetInv (loadOp s key).2 := by
  obtain ⟨h1, h2⟩ := h
  rw [memInv] at h1
  unfold loadOp
  cases hdisk : (s.disk.find? (fun p => p.1 == key)).map (·.2) with
  | none => exact ⟨h1, h2⟩
  | some e =>
    simp only [hdisk]
    cases hfind : memFind s.mem key with
    | some existing =>
      simp only [hfind]
      refine ⟨?_, h2⟩
      rw [memInv]
      simpa [memBytes_promote s.mem key existing hfind] using h1
    | none =>
      simp only [hfind]
      have hsum : s.currentBytes + (entrySize e : Int) =
          (memBytes ((key, e) :: s.mem) : Int) := by
        simp only [memBytes_cons]
        push_cast
        omega
      have hs := evictOverBudget_spec s.maxByteSize
        ((key, e) :: s.mem) _ hsum
      exact ⟨hs.1, hs.2⟩

/-- `get` preserves the byte-budget invariant. -/
theorem getOp_inv (s : LRUState) (key : String)
    (h : byteBudgetInv s) : byteBudgetInv (getOp s key).2 := by
  obtain ⟨h1, h2⟩ := h
  rw [memInv] at h1
  unfold getOp
  cases hfind : memFind s.mem key with
  | some e =>
    simp only [hfind]
    refine ⟨?_, h2⟩
    rw [memInv]
    simpa [memBytes_promote s.mem key e hfind] using h1
  | none =>
    simp only [hfind]
    split
    · exact loadOp_inv s key ⟨h1, h2⟩
    · exact ⟨h1, h2⟩

/-- `delete` preserves the byte-budget invariant. -/
theorem deleteOp_inv (s : LRUState) (key : String)
    (h : byteBudgetInv s) : byteBudgetInv (deleteOp s key) := by
  obtain ⟨h1, h2⟩ := h
  rw [memInv] at h1
  unfold deleteOp
  cases hfind : memFind s.mem key with
  | none =>
    simp only [hfind]
    split
    · exact ⟨h1, h2⟩
    · exact ⟨h1, h2⟩
  | some old =>
    simp only [hfind]
    have he := memBytes_eraseKey s.mem key old hfind
    have hinv : byteBudgetInv
        { s with
          mem := eraseKey s.mem key
          currentBytes := s.currentBytes - entrySize old } := by
      constructor
      · rw [memInv]
        push_cast
        omega
      · have : (0 : Int) ≤ entrySize old := Int.natCast_nonneg _
        simp only []
        omega
    split
    · exact ⟨hinv.1, hinv.2⟩
    · exact hinv

/-- Every store operation preserves the byte-budget invariant. -/
theorem applyOp_inv (s : LRUState) (op : StoreOp)
    (h : byteBudgetInv s) : byteBudgetInv (applyOp s op) := by
  cases op with
  | set k v => exact setOp_inv s k v h
  | get k => exact getOp_inv s k h
  | del k => exact deleteOp_inv s k h
  | load k => exact loadOp_inv s k h

/-- Sequences of store operations preserve the byte-budget invariant. -/
theorem applyOps_inv (ops : List StoreOp) :
    ∀ (s : LRUState), byteBudgetInv s → byteBudgetInv (applyOps s ops) := by
  induction ops with
  | nil => exact fun s h => h
  | cons op rest ih =>
    intro s h
    exact ih (applyOp s op) (applyOp_inv s op h)

/-- A freshly restored store satisfies the byte-budget invariant. -/
theorem initState_inv (maxB : Nat) (disk : List (String × ISRCacheEntry)) :
    byteBudgetInv (initState maxB disk) := by
  constructor
  · rfl
  · exact Int.natCast_nonneg _

/-- `maxByteSize` is configuration: no store operation changes it. -/
theorem applyOp_maxByteSize (s : LRUState) (op : StoreOp) :
    (applyOp s op).maxByteSize = s.maxByteSize := by
  cases op <;>
    simp only [applyOp, setOp, getOp, loadOp, deleteOp] <;>
    (repeat' split) <;> rfl

/-- The cacheability decision at the level of parsed directives: an entry is
built exactly for a strictly positive `s-maxage`, it copies the body and
timestamp, and `swr` falls back to 0 when absent. -/
theorem buildCacheEntryCC_spec (cc : CacheControl)
    (headers : List (String × String)) (status : Nat) (body : List Nat)
    (now : Nat) :
    ((buildCacheEntryCC cc headers status body now).isSome ↔
      ∃ v, cc.sMaxAge = some v ∧ 0 < v) ∧
    ∀ e, buildCacheEntryCC cc headers status body now = some e →
      0 < e.sMaxAge ∧ e.body = body ∧ e.cachedAt = now ∧
        e.sMaxAge = cc.sMaxAge.getD 0 ∧ e.swr = cc.swr.getD 0 := by
  cases hs : cc.sMaxAge with
  | none => simp [buildCacheEntryCC, hs]
  | some v =>
    by_cases hv : v ≤ 0
    · constructor
      · simp [buildCacheEntryCC, hs, hv]
        try omega
      · simp [buildCacheEntryCC, hs, hv]
    · constructor
      · simp [buildCacheEntryCC, hs, hv]
        try omega
      · intro e he
        simp [buildCacheEntryCC, hs, hv] at he
        subst he
        simp [hs]
        omega

/-- C4: a rendered response is stored if and only if its `Cache-Control`
carries a strictly positive `s-maxage` directive — `s-maxage=0` or a missing
`s-maxage` is never cached — and an entry built without
`stale-while-revalidate` has `swr = 0`; every built entry has `sMaxAge > 0`. -/
theorem cacheability_boundary (headers : List (String × String))
    (status : Nat) (body : List Nat) (now : Nat) :
    ((buildCacheEntry headers status body now).isSome ↔
      ∃ v, (parseCacheControl (findHeader headers "cache-control")).sMaxAge =
          some v ∧ 0 < v) ∧
    ∀ e, buildCacheEntry headers status body now = some e →
      0 < e.sMaxAge ∧ e.body = body ∧ e.cachedAt = now ∧
        ((parseCacheControl (findHeader headers "cache-control")).swr =
            none → e.swr = 0) := by
  have h := buildCacheEntryCC_spec
    (parseCacheControl (findHeader headers "cache-control"))
    headers status body now
  refine ⟨h.1, fun e he => ?_⟩
  obtain ⟨h1, h2, h3, _, h5⟩ := h.2 e he
  exact ⟨h1, h2, h3, fun hswr => by rw [h5, hswr]; rfl⟩

/-- Witness for C4: a response with `s-maxage=60` and no
`stale-while-revalidate` is cached, with `swr = 0` and `sMaxAge > 0`;
a response with `s-maxage=0` and one with only `max-age` are not cached. -/
theorem cacheability_boundary_witness :
    (buildCacheEntry [("cache-control", "s-maxage=60")] 200 [1] 7).isSome ∧
    (∀ e, buildCacheEntry [("cache-control", "s-maxage=60")] 200 [1] 7 =
      some e → 0 < e.sMaxAge ∧ e.swr = 0) ∧
    buildCacheEntry [("cache-control", "s-maxage=0")] 200 [1] 7 = none ∧
    buildCacheEntry [("cache-control", "max-age=60")] 200 [1] 7 = none := by
  have h := cacheability_boundary [("cache-control", "s-maxage=60")] 200 [1] 7
  refine ⟨h.1.mpr ⟨60, rfl, by omega⟩, fun e he => ?_, rfl, rfl⟩
  obtain ⟨h1, _, _, h4⟩ := h.2 e he
  exact ⟨h1, h4 rfl⟩

/-- Sequences of store operations leave the configured budget unchanged. -/
theorem applyOps_maxByteSize (ops : List StoreOp) :
    ∀ (s : LRUState), (applyOps s ops).maxByteSize = s.maxByteSize := by
  induction ops with
  | nil => exact fun s => rfl
  | cons op rest ih =>
    intro s
    have h1 := ih (applyOp s op)
    have h2 := applyOp_maxByteSize s op
    calc (applyOps s (op :: rest)).maxByteSize
        = (applyOps (applyOp s op) rest).maxByteSize := rfl
      _ = (applyOp s op).maxByteSize := h1
      _ = s.maxByteSize := h2

/-- C2: for every sequence of store operations on a freshly restored store,
the tracked running byte total equals the sum of the sizes of the nodes
linked in the memory tier, and never exceeds the configured byte budget. -/
theorem byte_budget_invariant (maxB : Nat)
    (disk : List (String × ISRCacheEntry)) (ops : List StoreOp) :
    (applyOps (initState maxB disk) ops).currentBytes =
        (memBytes (applyOps (initState maxB disk) ops).mem : Int) ∧
      (applyOps (initState maxB disk) ops).currentBytes ≤ (maxB : Int) := by
  have h := applyOps_inv ops _ (initState_inv maxB disk)
  have hmax := applyOps_maxByteSize ops (initState maxB disk)
  refine ⟨h.1, ?_⟩
  have h2 := h.2
  rw [hmax] at h2
  exact h2

/-- C7: strict LRU with promotion on reads and writes — inserting A(100) and
B(100) under a 200-byte budget, reading A, then inserting C(100) evicts B
from the memory tier and leaves A and C resident. -/
theorem lru_order_scenario :
    ((applyOps (initState 200 [])
        [.set "A" (entryOfBytes 100), .set "B" (entryOfBytes 100),
          .get "A", .set "C" (entryOfBytes 100)]).mem.map Prod.fst =
      ["C", "A"]) ∧
    memFind (applyOps (initState 200 [])
        [.set "A" (entryOfBytes 100), .set "B" (entryOfBytes 100),
          .get "A", .set "C" (entryOfBytes 100)]).mem "A" =
      some (entryOfBytes 100) ∧
    memFind (applyOps (initState 200 [])
        [.set "A" (entryOfBytes 100), .set "B" (entryOfBytes 100),
          .get "A", .set "C" (entryOfBytes 100)]).mem "C" =
      some (entryOfBytes 100) ∧
    memFind (applyOps (initState 200 [])
        [.set "A" (entryOfBytes 100), .set "B" (entryOfBytes 100),
          .get "A", .set "C" (entryOfBytes 100)]).mem "B" = none :=
  ⟨rfl, rfl, rfl, rfl⟩

/-- C9: the vacuum records only the current build id in the manifest, deletes
exactly the directories of manifest-tracked generations other than the
current one, and never touches untracked directories; a missing or corrupt
manifest (`none`) tracks nothing, so nothing is deleted. -/
theorem vacuum_scoping (buildId : String) (d : DiskFS) :
    (vacuum buildId d).manifest = some [buildId] ∧
    ∀ dir, dir ∈ (vacuum buildId d).dirs ↔
      dir ∈ d.dirs ∧ ¬(dir ∈ d.manifest.getD [] ∧ dir ≠ buildId) := by
  refine ⟨rfl, fun dir => ?_⟩
  simp [vacuum, List.mem_filter]
  tauto

/-- Witness for C9: vacuuming with current generation `B` after generation
`A` deletes `A`'s directory, preserves a directory never recorded in the
manifest, and leaves the manifest tracking only `B`. -/
theorem vacuum_scoping_witness :
    "A" ∉ (vacuum "B" vacuumFixture).dirs ∧
    "untracked" ∈ (vacuum "B" vacuumFixture).dirs ∧
    (vacuum "B" vacuumFixture).manifest = some ["B"] := by
  have h := vacuum_scoping "B" vacuumFixture
  refine ⟨fun hc => ?_, (h.2 "untracked").mpr (by decide), h.1⟩
  have := (h.2 "A").mp hc
  revert this
  decide

/-- C8 (amended): for an entry whose body fits in the byte budget, a `get`
immediately after `set` for the same key returns the new entry from the
memory tier — memory-tier mutations are synchronous. -/
theorem set_then_get_within_budget (s : LRUState) (key : String)
    (v : ISRCacheEntry) (hinv : memInv s)
    (hfit : entrySize v ≤ s.maxByteSize) :
    (getOp (setOp s key v) key).1 = some v := by
  rw [memInv] at hinv
  unfold setOp
  rw [if_neg (by omega : ¬ s.maxByteSize < entrySize v)]
  cases hfind : memFind s.mem key with
  | none =>
    simp only [hfind]
    have hsum : s.currentBytes + (entrySize v : Int) =
        (memBytes ((key, v) :: s.mem) : Int) := by
      simp only [memBytes_cons]
      push_cast
      omega
    obtain ⟨rest2, hfront⟩ :=
      evictOverBudget_front s.maxByteSize (key, v) s.mem _ hsum hfit
    unfold getOp
    simp [hfront, memFind_cons]
  | some old =>
    simp only [hfind]
    have he := memBytes_eraseKey s.mem key old hfind
    have hsum : s.currentBytes - (entrySize old : Int) + (entrySize v : Int) =
        (memBytes ((key, v) :: eraseKey s.mem key) : Int) := by
      simp only [memBytes_cons]
      push_cast
      omega
    obtain ⟨rest2, hfront⟩ :=
      evictOverBudget_front s.maxByteSize (key, v) (eraseKey s.mem key) _
        hsum hfit
    unfold getOp
    simp [hfront, memFind_cons]

/-- Witness for C8 (amended): on an empty 10-byte store, `get` right after
`set` of a 3-byte entry observes the new entry. -/
theorem set_then_get_within_budget_witness :
    (getOp (setOp (initState 10 []) "k" (entryOfBytes 3)) "k").1 =
      some (entryOfBytes 3) :=
  set_then_get_within_budget (initState 10 []) "k" (entryOfBytes 3)
    (by rfl) (by decide)

/-- Counterexample to C8 as stated: an entry whose body (20 bytes) exceeds
the whole budget (10 bytes) is rejected by `set`, so the following `get`
does not return it. -/
theorem set_then_get_counterexample :
    (getOp (setOp (initState 10 []) "k" (entryOfBytes 20)) "k").1 ≠
      some (entryOfBytes 20) := by
  decide

/-- Filtering the memory tier to image keys does not change lookups of image
keys (all nodes for such a key survive the filter). -/
theorem memFind_filter_image (imageRoute : String)
    (mem : List (String × ISRCacheEntry)) (key : String)
    (h : isImageKey imageRoute key = true) :
    memFind (mem.filter (fun p => isImageKey imageRoute p.1)) key =
      memFind mem key := by
  induction mem with
  | nil => simp [memFind]
  | cons p t ih =>
    rw [List.filter_cons]
    by_cases hp : p.1 == key
    · have hpk : p.1 = key := by simpa using hp
      rw [hpk, h]
      simp [hp, hpk]
    · simp only [Bool.not_eq_true] at hp
      by_cases hi : isImageKey imageRoute p.1
      · rw [if_pos (by rw [hi])]
        simp [hp, ih]
      · rw [if_neg (by simp [Bool.not_eq_true] at hi ⊢; exact hi)]
        simp [hp, ih]

/-- Filtering the memory tier to image keys removes every node of a
non-image key. -/
theorem memFind_filter_image_none (imageRoute : String)
    (mem : List (String × ISRCacheEntry)) (key : String)
    (h : isImageKey imageRoute key = false) :
    memFind (mem.filter (fun p => isImageKey imageRoute p.1)) key = none := by
  induction mem with
  | nil => simp [memFind]
  | cons p t ih =>
    rw [List.filter_cons]
    by_cases hi : isImageKey imageRoute p.1
    · have hp : (p.1 == key) = false := by
        by_contra hc
        simp only [Bool.not_eq_false] at hc
        have hpk : p.1 = key := by simpa using hc
        rw [hpk] at hi
        rw [h] at hi
        exact absurd hi (by simp)
      rw [if_pos (by rw [hi])]
      simp [hp, ih]
    · rw [if_neg (by simp [Bool.not_eq_true] at hi ⊢; exact hi)]
      exact ih

/-- Filtering the disk-key index to image keys removes every non-image key. -/
theorem contains_filter_image_none (imageRoute : String) (keys : List String)
    (key : String) (h : isImageKey imageRoute key = false) :
    (keys.filter (fun k => isImageKey imageRoute k)).contains key = false := by
  have hmem : key ∉ keys.filter (fun k => isImageKey imageRoute k) := by
    intro hc
    have := List.mem_filter.mp hc
    rw [h] at this
    exact absurd this.2 (by simp)
  simpa using hmem

/-- C5 (amended): `expireAll` deletes every entry except those under the
image endpoint route — a non-image key misses both tiers on its next access,
while an image-endpoint key keeps its memory-tier entry. -/
theorem expire_all_amended (imageRoute : String) (s : LRUState)
    (key : String) :
    (isImageKey imageRoute key = false →
      (getOp (expireAllOp imageRoute s) key).1 = none) ∧
    (isImageKey imageRoute key = true →
      memFind (expireAllOp imageRoute s).mem key = memFind s.mem key) := by
  constructor
  · intro h
    unfold getOp expireAllOp
    simp only []
    rw [memFind_filter_image_none imageRoute s.mem key h]
    rw [contains_filter_image_none imageRoute s.diskKeys key h]
    simp
  · intro h
    unfold expireAllOp
    simp only []
    exact memFind_filter_image imageRoute s.mem key h

/-- Witness for C5 (amended): on a store holding `/page` and an image entry,
`expireAll` makes `/page` a miss and leaves the image entry in memory. -/
theorem expire_all_amended_witness :
    (getOp (expireAllOp "/_image" expireAllState) "/page").1 = none ∧
    memFind (expireAllOp "/_image" expireAllState).mem "/_image?href=a" =
      memFind expireAllState.mem "/_image?href=a" :=
  ⟨(expire_all_amended "/_image" expireAllState "/page").1 rfl,
    (expire_all_amended "/_image" expireAllState "/_image?href=a").2 rfl⟩

/-- Counterexample to C5 as stated: after `expireAll`, the next access to an
image-endpoint key is a HIT served from the preserved entry, not a MISS. -/
theorem expire_all_counterexample :
    (handleRequest
        { cache := expireAllOp "/_image" expireAllState
          revalidating := []
          inflight := [] } "/_image?href=a" 1000).1 =
      RequestOutcome.served (responseFromEntry imageEntry .HIT) false := rfl

/-- Fresh window: the handler serves the promoted entry tagged HIT and starts
nothing. -/
theorem handleRequest_hit (s : HandlerState) (key : String) (now : Nat)
    (e : ISRCacheEntry) (hget : (getOp s.cache key).1 = some e)
    (hfresh : (now : Int) - e.cachedAt < e.sMaxAge * 1000) :
    handleRequest s key now =
      (.served (responseFromEntry e .HIT) false,
        { s with cache := (getOp s.cache key).2 }) := by
  unfold handleRequest
  simp only [hget]
  rw [if_pos hfresh]

/-- Stale window: the handler serves the entry tagged STALE and starts a
background revalidation exactly when none is running for the key. -/
theorem handleRequest_stale (s : HandlerState) (key : String) (now : Nat)
    (e : ISRCacheEntry) (hget : (getOp s.cache key).1 = some e)
    (h1 : e.sMaxAge * 1000 ≤ (now : Int) - e.cachedAt)
    (h2 : (now : Int) - e.cachedAt < (e.sMaxAge + e.swr) * 1000) :
    handleRequest s key now =
      (.served (responseFromEntry e .STALE) (!s.revalidating.contains key),
        { s with
          cache := (getOp s.cache key).2
          revalidating :=
            if s.revalidating.contains key then s.revalidating
            else key :: s.revalidating }) := by
  unfold handleRequest
  simp only [hget]
  rw [if_neg (not_lt.mpr h1), if_pos h2]
  by_cases hc : key ∈ s.revalidating <;> simp [hc]

/-- Expired: the handler deletes the entry from the store and proceeds as a
MISS, rendering unless a render is already pending for the key. -/
theorem handleRequest_expired (s : HandlerState) (key : String) (now : Nat)
    (e : ISRCacheEntry) (hget : (getOp s.cache key).1 = some e)
    (hswr : 0 ≤ e.swr)
    (h1 : (e.sMaxAge + e.swr) * 1000 ≤ (now : Int) - e.cachedAt) :
    handleRequest s key now =
      ((if s.inflight.contains key then .missAwait true
        else .missRender true),
        { s with
          cache := deleteOp (getOp s.cache key).2 key
          inflight :=
            if s.inflight.contains key then s.inflight
            else key :: s.inflight }) := by
  unfold handleRequest
  simp only [hget]
  rw [if_neg (by omega), if_neg (by omega)]
  by_cases hc : key ∈ s.inflight <;> simp [hc]
/-- A background render that completes with a cacheable entry overwrites the
stored entry via `cache.set` and clears the per-key marker. -/
theorem settleRevalidation_ok (s : HandlerState) (key imageRoute : String)
    (h2 : List (String × String)) (st2 : Nat) (b2 : List Nat) (now : Nat)
    (e2 : ISRCacheEntry)
    (hre : renderEntry imageRoute key h2 st2 b2 now = some e2) :
    settleRevalidation s key imageRoute (.ok h2 st2 b2) now =
      { s with
        cache := setOp s.cache key e2
        revalidating := s.revalidating.erase key } := by
  simp only [settleRevalidation, settleRender, hre]

/-- C1: with a stored entry, the decision is a function of
`elapsed = now - cachedAt`: below `sMaxAge` seconds the cached response is
served tagged HIT with no render; between `sMaxAge` and `sMaxAge + swr` the
cached response is served tagged STALE and exactly one background render is
started iff none is running, a render whose cacheable completion overwrites
the entry; past `sMaxAge + swr` the entry is deleted and the request proceeds
as a MISS render, not STALE. -/
theorem freshness_transitions (s : HandlerState) (key : String) (now : Nat)
    (e : ISRCacheEntry) (hget : (getOp s.cache key).1 = some e)
    (hswr : 0 ≤ e.swr) :
    ((now : Int) - e.cachedAt < e.sMaxAge * 1000 →
      handleRequest s key now =
        (.served (responseFromEntry e .HIT) false,
          { s with cache := (getOp s.cache key).2 })) ∧
    (e.sMaxAge * 1000 ≤ (now : Int) - e.cachedAt →
      (now : Int) - e.cachedAt < (e.sMaxAge + e.swr) * 1000 →
      handleRequest s key now =
        (.served (responseFromEntry e .STALE) (!s.revalidating.contains key),
          { s with
            cache := (getOp s.cache key).2
            revalidating :=
              if s.revalidating.contains key then s.revalidating
              else key :: s.revalidating }) ∧
      (∀ (s2 : HandlerState) (imageRoute : String)
          (h2 : List (String × String)) (st2 : Nat) (b2 : List Nat)
          (now2 : Nat) (e2 : ISRCacheEntry),
        renderEntry imageRoute key h2 st2 b2 now2 = some e2 →
        settleRevalidation s2 key imageRoute (.ok h2 st2 b2) now2 =
          { s2 with
            cache := setOp s2.cache key e2
            revalidating := s2.revalidating.erase key })) ∧
    ((e.sMaxAge + e.swr) * 1000 ≤ (now : Int) - e.cachedAt →
      handleRequest s key now =
        ((if s.inflight.contains key then .missAwait true
          else .missRender true),
          { s with
            cache := deleteOp (getOp s.cache key).2 key
            inflight :=
              if s.inflight.contains key then s.inflight
              else key :: s.inflight })) := by
  refine ⟨fun h1 => handleRequest_hit s key now e hget h1,
    fun h1 h2 => ⟨handleRequest_stale s key now e hget h1 h2,
      fun s2 imageRoute hh st2 b2 now2 e2 hre =>
        settleRevalidation_ok s2 key imageRoute hh st2 b2 now2 e2 hre⟩,
    fun h1 => handleRequest_expired s key now e hget hswr h1⟩

/-- Witness for C1: with `sMaxAge = 1 s`, `swr = 10 s`, a request at
t = 1.5 s serves STALE and starts exactly one background revalidation. -/
theorem freshness_transitions_witness :
    handleRequest staleHandlerState "/page" 1500 =
      (.served (responseFromEntry staleEntry .STALE) true,
        { staleHandlerState with
          cache := (getOp staleHandlerState.cache "/page").2
          revalidating := ["/page"] }) := by
  have h := freshness_transitions staleHandlerState "/page" 1500 staleEntry
    (by rfl) (by decide)
  have h2 := (h.2.1 (by decide) (by decide)).1
  exact h2
/-- C10: a background revalidation that fails or produces a non-cacheable
response leaves the store untouched; only a successful cacheable render
overwrites the entry; the per-key marker is cleared however the attempt
settles, so a later stale request starts a new revalidation. -/
theorem revalidation_failure_preserves_entry (s : HandlerState)
    (key imageRoute : String) (now : Nat) (o : RenderOutcome) :
    (o = .failed →
      settleRevalidation s key imageRoute o now =
        { s with revalidating := s.revalidating.erase key }) ∧
    (∀ h2 st2 b2, o = .ok h2 st2 b2 →
      renderEntry imageRoute key h2 st2 b2 now = none →
      settleRevalidation s key imageRoute o now =
        { s with revalidating := s.revalidating.erase key }) ∧
    (∀ h2 st2 b2 e2, o = .ok h2 st2 b2 →
      renderEntry imageRoute key h2 st2 b2 now = some e2 →
      settleRevalidation s key imageRoute o now =
        { s with
          cache := setOp s.cache key e2
          revalidating := s.revalidating.erase key }) ∧
    (s.revalidating.Nodup →
      (settleRevalidation s key imageRoute o now).revalidating.contains key
        = false) ∧
    (∀ (e2 : ISRCacheEntry) (now2 : Nat), s.revalidating.Nodup →
      (getOp (settleRevalidation s key imageRoute o now).cache key).1 =
        some e2 →
      e2.sMaxAge * 1000 ≤ (now2 : Int) - e2.cachedAt →
      (now2 : Int) - e2.cachedAt < (e2.sMaxAge + e2.swr) * 1000 →
      (handleRequest (settleRevalidation s key imageRoute o now) key now2).1 =
        .served (responseFromEntry e2 .STALE) true) := by
  have hclear : ∀ (hnd : s.revalidating.Nodup),
      (settleRevalidation s key imageRoute o now).revalidating.contains key
        = false := by
    intro hnd
    have : key ∉ s.revalidating.erase key := by
      intro hc
      exact absurd ((List.Nodup.mem_erase_iff hnd).mp hc).1 (by simp)
    simpa [settleRevalidation] using this
  refine ⟨?_, ?_, ?_, hclear, ?_⟩
  · intro ho
    subst ho
    simp only [settleRevalidation, settleRender]
  · intro h2 st2 b2 ho hre
    subst ho
    simp only [settleRevalidation, settleRender, hre]
  · intro h2 st2 b2 e2 ho hre
    subst ho
    simp only [settleRevalidation, settleRender, hre]
  · intro e2 now2 hnd hget hs1 hs2
    have hst := handleRequest_stale (settleRevalidation s key imageRoute o now)
      key now2 e2 hget hs1 hs2
    have hmem : key ∉ (settleRevalidation s key imageRoute o now).revalidating := by
      simpa using hclear hnd
    rw [hst]
    simp [hmem]

/-- Witness for C10: settling a failed revalidation on a handler with one
cached page leaves the store unchanged and clears the marker. -/
theorem revalidation_failure_witness :
    settleRevalidation
        { staleHandlerState with revalidating := ["/page"] }
        "/page" "/_image" .failed 99 =
      { staleHandlerState with revalidating := [] } := by
  have h := revalidation_failure_preserves_entry
    { staleHandlerState with revalidating := ["/page"] }
    "/page" "/_image" 99 .failed
  have h1 := h.1 rfl
  simpa using h1
/-- After the image override, the effective `cache-control` value is
`IMAGE_CACHE_CONTROL` (whenever the response carried one at all). -/
theorem override_findHeader (headers : List (String × String))
    (p : String × String)
    (h : headers.find? (fun q => q.1 == "cache-control") = some p) :
    findHeader (overrideFirstCacheControl headers) "cache-control" =
      IMAGE_CACHE_CONTROL := by
  induction headers with
  | nil => simp at h
  | cons q t ih =>
    by_cases hq : q.1 == "cache-control"
    · have hq2 : q.1 = "cache-control" := by simpa using hq
      unfold overrideFirstCacheControl
      rw [if_pos hq]
      unfold findHeader
      rw [List.find?_cons_of_pos _ (by simpa using hq)]
      rfl
    · simp only [Bool.not_eq_true] at hq
      rw [List.find?_cons_of_neg _ (by simp [hq])] at h
      unfold overrideFirstCacheControl
      rw [if_neg (by simp [hq])]
      unfold findHeader
      rw [List.find?_cons_of_neg _ (by simp [hq])]
      exact ih h

/-- C6: a response from the image endpoint route carrying only a bare
`max-age` has its effective `Cache-Control` rewritten to
`IMAGE_CACHE_CONTROL` before the cacheability check, so it is cached with
`sMaxAge = 31536000` and `swr = 86400` and a later request within the fresh
window is a HIT; responses from non-image routes are never rewritten. -/
theorem image_endpoint_override (imageRoute key : String)
    (headers : List (String × String)) (status : Nat) (body : List Nat)
    (now : Nat) :
    (isImageKey imageRoute key = false →
      renderHeaders imageRoute key headers = headers) ∧
    (isImageKey imageRoute key = true →
      (parseCacheControl (findHeader headers "cache-control")).sMaxAge =
        none →
      (∃ m, (parseCacheControl (findHeader headers "cache-control")).maxAge =
        some m) →
      (∃ e, renderEntry imageRoute key headers status body now = some e ∧
        e.sMaxAge = 31536000 ∧ e.swr = 86400 ∧ e.body = body ∧
        e.cachedAt = now ∧
        ∀ (s : HandlerState) (now2 : Nat),
          (getOp s.cache key).1 = some e →
          (now2 : Int) - now < 31536000 * 1000 →
          (handleRequest s key now2).1 =
            .served (responseFromEntry e .HIT) false)) := by
  constructor
  · intro h
    simp [renderHeaders, h]
  · intro himg hsm hma
    obtain ⟨m, hm⟩ := hma
    cases hf : headers.find? (fun q => q.1 == "cache-control") with
    | none =>
      exfalso
      have : findHeader headers "cache-control" = "" := by
        simp [findHeader, hf]
      rw [this] at hm
      have hempty : (parseCacheControl "").maxAge = none := rfl
      rw [hempty] at hm
      exact absurd hm (by simp)
    | some p =>
      have hover := override_findHeader headers p hf
      have hrh : renderHeaders imageRoute key headers =
          overrideFirstCacheControl headers := by
        simp [renderHeaders, himg]
      have hpic : parseCacheControl IMAGE_CACHE_CONTROL =
          { sMaxAge := some 31536000
            swr := some 86400
            maxAge := some 31536000 } := rfl
      refine ⟨{ body := body
                headers := overrideFirstCacheControl headers
                status := status
                cachedAt := now
                sMaxAge := 31536000
                swr := 86400 }, ?_, rfl, rfl, rfl, rfl, ?_⟩
      · unfold renderEntry buildCacheEntry
        rw [hrh, hover, hpic]
        rfl
      · intro s now2 hget hfresh
        have hh := handleRequest_hit s key now2 _ hget (by simpa using hfresh)
        rw [hh]
/-- Witness for C6: an image-endpoint response carrying only
`max-age=31536000` becomes cacheable with a one-year fresh window. -/
theorem image_endpoint_override_witness :
    ∃ e, renderEntry "/_image" "/_image?href=foo.png&w=100"
        bareMaxAgeHeaders 200 [9, 9] 0 = some e ∧
      e.sMaxAge = 31536000 ∧ e.swr = 86400 ∧ e.body = [9, 9] ∧
      e.cachedAt = 0 ∧
      ∀ (s : HandlerState) (now2 : Nat),
        (getOp s.cache "/_image?href=foo.png&w=100").1 = some e →
        (now2 : Int) - 0 < 31536000 * 1000 →
        (handleRequest s "/_image?href=foo.png&w=100" now2).1 =
          .served (responseFromEntry e .HIT) false :=
  (image_endpoint_override "/_image" "/_image?href=foo.png&w=100"
    bareMaxAgeHeaders 200 [9, 9] 0).2 rfl rfl ⟨31536000, rfl⟩

/-- A `get` that misses keeps missing when repeated on the resulting state
(only a `set` or a successful disk load can make the key appear). -/
theorem getOp_none_stable (c : LRUState) (key : String)
    (h : (getOp c key).1 = none) : (getOp (getOp c key).2 key).1 = none := by
  cases hfind : memFind c.mem key with
  | some e =>
    exfalso
    unfold getOp at h
    rw [hfind] at h
    simp at h
  | none =>
    by_cases hd : key ∈ c.diskKeys
    · cases hdisk : (c.disk.find? (fun p => p.1 == key)).map (·.2) with
      | some e =>
        exfalso
        unfold getOp loadOp at h
        simp [hfind, hd, hdisk] at h
      | none =>
        have hst : (getOp c key).2 =
            { c with diskKeys := c.diskKeys.erase key } := by
          unfold getOp loadOp
          simp [hfind, hd, hdisk]
        rw [hst]
        unfold getOp loadOp
        by_cases h2 : key ∈ c.diskKeys.erase key
        · simp [hfind, h2, hdisk]
        · simp [hfind, h2]
    · have hst : (getOp c key).2 = c := by
        unfold getOp
        simp [hfind, hd]
      rw [hst]
      exact h

/-- A coalescing arrival: a MISS while a render is pending for the key
awaits it and starts nothing. -/
theorem handleRequest_missAwait (s : HandlerState) (key : String) (now : Nat)
    (hget : (getOp s.cache key).1 = none)
    (hin : s.inflight.contains key = true) :
    handleRequest s key now =
      (.missAwait false, { s with cache := (getOp s.cache key).2 }) := by
  unfold handleRequest
  simp only [hget]
  rw [if_pos hin]

/-- A first arrival: a MISS with no pending render registers one and starts
the origin render. -/
theorem handleRequest_missRender (s : HandlerState) (key : String) (now : Nat)
    (hget : (getOp s.cache key).1 = none)
    (hin : s.inflight.contains key = false) :
    handleRequest s key now =
      (.missRender false,
        { s with
          cache := (getOp s.cache key).2
          inflight := key :: s.inflight }) := by
  unfold handleRequest
  simp only [hget]
  rw [if_neg (by rw [hin]; simp)]

/-- Once a render is pending for the key, further arrivals start no render. -/
theorem missArrivals_zero (key : String) (now : Nat) :
    ∀ (n : Nat) (s : HandlerState),
      (getOp s.cache key).1 = none → s.inflight.contains key = true →
      (missArrivals s key now n).1 = 0 := by
  intro n
  induction n with
  | zero => intro s hget hin; rfl
  | succ n ih =>
    intro s hget hin
    unfold missArrivals
    rw [handleRequest_missAwait s key now hget hin]
    simp only []
    rw [ih { s with cache := (getOp s.cache key).2 }
      (getOp_none_stable s.cache key hget) hin]

/-- Exactly one of `n ≥ 1` concurrent MISS arrivals starts a render. -/
theorem missArrivals_one (key : String) (now : Nat) (n : Nat)
    (s : HandlerState) (hn : 1 ≤ n)
    (hget : (getOp s.cache key).1 = none)
    (hin : s.inflight.contains key = false) :
    (missArrivals s key now n).1 = 1 := by
  cases n with
  | zero => exact absurd hn (by omega)
  | succ n =>
    unfold missArrivals
    rw [handleRequest_missRender s key now hget hin]
    simp only []
    rw [missArrivals_zero key now n
      { s with
        cache := (getOp s.cache key).2
        inflight := key :: s.inflight }
      (getOp_none_stable s.cache key hget) (by simp)]

/-- Fields of an entry built by `renderToEntry`: the body and timestamp come
from the rendered response. -/
theorem renderEntry_fields (imageRoute key : String)
    (h2 : List (String × String)) (st2 : Nat) (b2 : List Nat) (now : Nat)
    (e2 : ISRCacheEntry)
    (hre : renderEntry imageRoute key h2 st2 b2 now = some e2) :
    e2.body = b2 ∧ e2.cachedAt = now ∧ 0 < e2.sMaxAge := by
  have h := (buildCacheEntryCC_spec
    (parseCacheControl
      (findHeader (renderHeaders imageRoute key h2) "cache-control"))
    (renderHeaders imageRoute key h2) st2 b2 now).2 e2 hre
  exact ⟨h.2.1, h.2.2.1, h.1⟩

/-- C3 (amended): when the pending render resolves with a cacheable entry,
`n ≥ 1` concurrent MISS arrivals for one key invoke the origin exactly once
— the first caller starts the only render, later callers coalesce on it —
and every waiting caller receives the stored copy of the rendered body. -/
theorem miss_coalescing (s : HandlerState) (key imageRoute : String)
    (now : Nat) (n : Nat) (h2 : List (String × String)) (st2 : Nat)
    (b2 : List Nat) (e2 : ISRCacheEntry) (hn : 1 ≤ n)
    (hget : (getOp s.cache key).1 = none)
    (hin : s.inflight.contains key = false)
    (hre : renderEntry imageRoute key h2 st2 b2 now = some e2) :
    missScenarioCalls s key imageRoute now n (.ok h2 st2 b2) = 1 ∧
    (settleMiss (missArrivals s key now n).2 key imageRoute
        (.ok h2 st2 b2) now).1 = some (some e2) ∧
    (∀ bp, (waiterResponse (some e2) bp).body = b2) ∧
    e2.body = b2 := by
  have hbody := (renderEntry_fields imageRoute key h2 st2 b2 now e2 hre).1
  have hpending : (settleMiss (missArrivals s key now n).2 key imageRoute
      (.ok h2 st2 b2) now).1 = some (some e2) := by
    simp only [settleMiss, settleRender, hre]
  refine ⟨?_, hpending, fun bp => ?_, hbody⟩
  · unfold missScenarioCalls
    simp only [hpending]
    rw [missArrivals_one key now n s hn hget hin]
    simp [waiterOriginCalls]
  · simp [waiterResponse, responseFromEntry, hbody]

/-- Witness for C3 (amended): three concurrent MISS requests for `/page`
with a cacheable render invoke the origin exactly once. -/
theorem miss_coalescing_witness :
    missScenarioCalls emptyHandlerState "/page" "/_image" 5 3
      (.ok [("cache-control", "s-maxage=60")] 200 [7]) = 1 :=
  (miss_coalescing emptyHandlerState "/page" "/_image" 5 3
    [("cache-control", "s-maxage=60")] 200 [7]
    { body := [7]
      headers := [("cache-control", "s-maxage=60")]
      status := 200
      cachedAt := 5
      sMaxAge := 60
      swr := 0 }
    (by omega) rfl rfl rfl).1

/-- Counterexample to C3 as stated: when the render result is not cacheable,
each of the two coalesced callers falls through to its own BYPASS render, so
two concurrent MISS requests invoke the origin twice, not once. -/
theorem miss_coalescing_counterexample :
    missScenarioCalls emptyHandlerState "/page" "/_image" 5 2
      (.ok [("cache-control", "max-age=60")] 200 [7]) = 2 := rfl
end ISR
